import Mathlib

/-
Shallow embedding of the `ConfigArray` library (humanwhocodes/config-array).

The definitions below are translated from `src/unnamed/part_002` (the later of
the two `config-array.js` revisions present in the repository, the one cited by
the claims) together with `src/src/base-schema.js`.  JavaScript features are
modelled as follows:

* config values reaching the array are the variant `Item`: a plain object
  (`obj`), an array (`arr`), or a config function (`fn`), mirroring the
  `typeof`/`Array.isArray` dispatch in `normalize` and the constructor;
* a thrown exception is an `Except.error`;
* the `undefined` result of a JS function is `Option.none`;
* `minimatch(path, pattern, { matchBase: true })` is modelled by an abstract
  glob oracle `glob : String → String → Bool` for the glob core, with the
  leading `!` negation handling of minimatch made explicit (`minimatchB`),
  since the source delegates all glob evaluation to the minimatch library;
* `path.relative(basePath, filePath)` is the abstract parameter `relative`;
* `ObjectSchema.merge` (an external package) is the abstract parameter
  `mergeFn`, folded exactly as `matchingConfigs.reduce(..., {})` does;
* the unbounded recursion of the `flatTraverse` generator is given a `fuel`
  bound; exhausting it is the distinguished error `depthExceeded`, standing
  for the stack overflow the JS engine would raise on over-deep nesting.
-/

/-- Decidable equality for thrown-or-returned results, used to evaluate the
embedding on concrete inputs. -/
instance {ε α : Type} [DecidableEq ε] [DecidableEq α] : DecidableEq (Except ε α) :=
  fun a b =>
    match a, b with
    | .ok x, .ok y =>
        if h : x = y then .isTrue (by rw [h]) else .isFalse (by simp [h])
    | .error x, .error y =>
        if h : x = y then .isTrue (by rw [h]) else .isFalse (by simp [h])
    | .ok _, .error _ => .isFalse (by simp)
    | .error _, .ok _ => .isFalse (by simp)

/-- Strips the leading `!` characters of a minimatch pattern, toggling the
negate flag for each one, as minimatch's pattern parser does. -/
def stripNegations : Bool → List Char → Bool × List Char
  | neg, c :: rest => if c = '!' then stripNegations (!neg) rest else (neg, c :: rest)
  | neg, [] => (neg, [])

/-- Model of `minimatch(path, pattern, MINIMATCH_OPTIONS)`: leading `!`
characters negate the match of the remaining glob core, which is evaluated by
the abstract oracle `glob`. -/
def minimatchB (glob : String → String → Bool) (pathStr pat : String) : Bool :=
  let stripped := stripNegations false pat.toList
  let res := glob pathStr (String.mk stripped.2)
  if stripped.1 then !res else res

/-- An element of a `files` array in a config: either a single glob string, or
an array of glob strings that must all match (the AND form handled by
`pattern.every(...)` in `pathMatches`). -/
inductive FilePattern where
  | str (s : String)
  | conj (subs : List String)
deriving DecidableEq, Repr

/-- The JS value found under the `files` key of a config object: absent
(`undefined`), present but not an array (with its JS truthiness), or an
array of patterns. -/
inductive FilesField where
  | absent
  | notArray (truthy : Bool)
  | array (elems : List FilePattern)
deriving DecidableEq, Repr

/-- JS truthiness of the `files` value: `undefined` is falsy, arrays are
always truthy, other values carry their own truthiness. -/
def jsTruthyFiles : FilesField → Bool
  | .absent => false
  | .notArray t => t
  | .array _ => true

/-- A plain config object.  `extra` stands for all user keys other than
`files` and `ignores` (an association of key names to opaque values); the
code under scrutiny never inspects user values, it only passes them to the
schema merge. -/
structure Config where
  files : FilesField := .absent
  ignores : Option (List String) := none
  extra : List (String × Nat) := []
deriving DecidableEq, Repr

/-- Evaluates one element of `config.files` against the relative file path:
a string goes through minimatch, an array requires every sub-pattern to
match (`pattern.every(subpattern => minimatch(...))`). -/
def patternMatches (glob : String → String → Bool) (relativeFilePath : String) :
    FilePattern → Bool
  | .str s => minimatchB glob relativeFilePath s
  | .conj subs => subs.all (fun sub => minimatchB glob relativeFilePath sub)

/-- Errors thrown by the `ConfigArray` query methods. -/
inductive CAErr where
  | notNormalized
  | invalidFiles
  | notExtensible
  | spreadFailure
deriving DecidableEq, Repr

/-- Translation of `pathMatches(relativeFilePath, config)` from
`src/unnamed/part_002` lines 73-108: a config with a falsy `files` always
matches; a truthy non-array or empty-array `files` throws the
`The files key must be a non-empty array.` TypeError; otherwise the file
matches when some `files` element matches and, if `ignores` is present, no
ignore pattern minimatch-matches the relative path. -/
def pathMatches (glob : String → String → Bool) (relativeFilePath : String)
    (config : Config) : Except CAErr Bool :=
  if !jsTruthyFiles config.files then .ok true
  else
    match config.files with
    | .array (p :: ps) =>
        let filesMatched := (p :: ps).any (patternMatches glob relativeFilePath)
        match config.ignores with
        | some igs =>
            .ok (filesMatched && !(igs.any (fun pat => minimatchB glob relativeFilePath pat)))
        | none => .ok filesMatched
    | _ => .error .invalidFiles

/-- A config whose `files` key makes `pathMatches` throw: present and truthy
but not a non-empty array. -/
def hasInvalidFiles (c : Config) : Bool :=
  match c.files with
  | .array [] => true
  | .notArray t => t
  | _ => false

/-- A raw element of a `ConfigArray` before normalization: a plain config
object, a nested array, or a config function taking the context. -/
inductive Item (Ctx : Type) where
  | obj (config : Config)
  | arr (items : List (Item Ctx))
  | fn (f : Ctx → Item Ctx)

/-- Reading the config properties of an item, as the query loops do with
`config.files` / `config.ignores`: property access on a function or an array
yields `undefined` for these keys, i.e. the empty config. -/
def itemConfig {Ctx : Type} : Item Ctx → Config
  | .obj c => c
  | _ => {}

/-- The state of a `ConfigArray` instance: its elements, the `basePath`
option, the private normalization flag, the `Object.freeze` status, and the
config cache (an association list standing for the `Map`). -/
structure CAState (Ctx μ : Type) where
  entries : List (Item Ctx)
  basePath : String
  isNorm : Bool
  frozen : Bool
  cache : List (String × μ)

/-- Translation of the `ConfigArray` constructor (part_002 lines 147-192):
an array argument is spread into the instance, any other value is pushed as
a single element; the `normalized` option initializes the private flag, the
cache starts empty, and the instance is not frozen. -/
def ConfigArray.construct {Ctx μ : Type} (configs : Item Ctx) (basePath : String)
    (normalized : Bool) : CAState Ctx μ :=
  { entries :=
      match configs with
      | .arr items => items
      | other => [other],
    basePath := basePath, isNorm := normalized, frozen := false, cache := [] }

/-- Errors thrown by `normalize` (the helper of part_002 lines 37-60). -/
inductive NormErr where
  | fnReturnedFn
  | depthExceeded
deriving DecidableEq, Repr

/-- One level of the `flatTraverse` generator: processes the list in order,
applying `step` to each element and concatenating the yielded configs,
stopping at the first thrown error. -/
def traverseLevel {Ctx : Type} (step : Item Ctx → Except NormErr (List Config)) :
    List (Item Ctx) → Except NormErr (List Config)
  | [] => .ok []
  | item :: rest => do
      let here ← step item
      let there ← traverseLevel step rest
      .ok (here ++ there)

/-- Translation of `flatTraverse` (part_002 lines 41-55), bounded by `fuel`
on the nesting depth: a function element is invoked once with the context; a
function result that is again a function throws the
`A config function can only return an object or array.` TypeError; arrays
(either direct elements or function results) are traversed recursively; any
other value is yielded. -/
def flatTraverse {Ctx : Type} (context : Ctx) :
    Nat → List (Item Ctx) → Except NormErr (List Config)
  | 0, [] => .ok []
  | 0, _ :: _ => .error .depthExceeded
  | fuel + 1, items =>
      traverseLevel
        (fun item =>
          match item with
          | .obj c => .ok [c]
          | .arr inner => flatTraverse context fuel inner
          | .fn f =>
              match f context with
              | .obj c => .ok [c]
              | .fn _ => .error .fnReturnedFn
              | .arr inner => flatTraverse context fuel inner)
        items

/-- Translation of `ConfigArray.prototype.normalize` (part_002 lines
262-275) as a state transition: when the array is already normalized nothing
happens and `this` is returned; otherwise the elements are flattened, and
only on success are the entries replaced, the flag set, and the instance
frozen.  An error is thrown before any mutation, so the error case returns
the unchanged state. -/
def ConfigArray.normalizeM {Ctx μ : Type} (fuel : Nat) (s : CAState Ctx μ)
    (context : Ctx) : Except NormErr Unit × CAState Ctx μ :=
  if s.isNorm then (.ok (), s)
  else
    match flatTraverse context fuel s.entries with
    | .error e => (.error e, s)
    | .ok configs =>
        (.ok (), { s with entries := configs.map Item.obj, isNorm := true, frozen := true })

/-- Lookup in the config cache (the `Map.get` of part_002 line 287). -/
def cacheGet {μ : Type} : List (String × μ) → String → Option μ
  | [], _ => none
  | (k, v) :: rest, key => if k = key then some v else cacheGet rest key

/-- The loop body of the `files` getter: a config with a truthy `files`
value has it spread onto the result (`result.push(...config.files)`);
spreading a truthy non-array value would throw in JS (`push(...)` on a
non-iterable), modelled by `spreadFailure`. -/
def filesGetStep (result : List FilePattern) (c : Config) :
    Except CAErr (List FilePattern) :=
  if jsTruthyFiles c.files then
    match c.files with
    | .array elems => .ok (result ++ elems)
    | _ => .error .spreadFailure
  else .ok result

/-- Translation of the `files` getter (part_002 lines 211-224): requires the
array to be normalized, then concatenates the `files` value of every config
that has a truthy one. -/
def ConfigArray.filesGet {Ctx μ : Type} (s : CAState Ctx μ) :
    Except CAErr (List FilePattern) :=
  if !s.isNorm then .error .notNormalized
  else s.entries.foldlM (fun acc item => filesGetStep acc (itemConfig item)) []

/-- Translation of the `ignores` getter (part_002 lines 233-246, identical
in `src/src/config-array.js` lines 162-175): requires the array to be
normalized, then concatenates `config.ignores` over every config for which
`config.ignores && !config.files` holds, i.e. `ignores` present and `files`
falsy — regardless of any other keys the config carries. -/
def ConfigArray.ignoresGet {Ctx μ : Type} (s : CAState Ctx μ) :
    Except CAErr (List String) :=
  if !s.isNorm then .error .notNormalized
  else
    .ok (s.entries.foldl
      (fun acc item =>
        let c := itemConfig item
        match c.ignores with
        | some igs => if jsTruthyFiles c.files then acc else acc ++ igs
        | none => acc)
      [])

/-- Translation of `Array.prototype.push` on the instance: throws
`TypeError` once the array has been frozen by `normalize`, otherwise appends
the element. -/
def ConfigArray.pushEntry {Ctx μ : Type} (s : CAState Ctx μ) (item : Item Ctx) :
    Except CAErr (CAState Ctx μ) :=
  if s.frozen then .error .notExtensible
  else .ok { s with entries := s.entries ++ [item] }

/-- The matching loop of `getConfig` (part_002 lines 295-305): collects, in
order, the configs for which `pathMatches` returns true, propagating the
first thrown error. -/
def collectMatching {Ctx : Type} (glob : String → String → Bool) (rel : String) :
    List (Item Ctx) → Except CAErr (List Config)
  | [] => .ok []
  | item :: rest => do
      let m ← pathMatches glob rel (itemConfig item)
      let others ← collectMatching glob rel rest
      .ok (if m then itemConfig item :: others else others)

/-- The cache-free part of `getConfig`: compute the relative path, collect
the matching configs, and fold them through the schema merge starting from
the empty object (`matchingConfigs.reduce(...this[schema].merge..., {})`). -/
def ConfigArray.computeConfig {Ctx μ : Type} (glob : String → String → Bool)
    (relative : String → String → String) (mergeFn : μ → Config → μ) (emptyCfg : μ)
    (s : CAState Ctx μ) (filePath : String) : Except CAErr μ :=
  (collectMatching glob (relative s.basePath filePath) s.entries).map
    (fun matching => matching.foldl mergeFn emptyCfg)

/-- Translation of `ConfigArray.prototype.getConfig` (part_002 lines
282-314): requires normalization, returns the cached value when present
(every cached value is a merge result, hence a truthy object, so the JS
truthiness test on it is a presence test), otherwise computes the merged
config, stores it in the cache and returns it.  The returned JS value is
`Option`-typed; this implementation always produces `some`. -/
def ConfigArray.getConfig {Ctx μ : Type} (glob : String → String → Bool)
    (relative : String → String → String) (mergeFn : μ → Config → μ) (emptyCfg : μ)
    (s : CAState Ctx μ) (filePath : String) :
    Except CAErr (Option μ × CAState Ctx μ) :=
  if !s.isNorm then .error .notNormalized
  else
    match cacheGet s.cache filePath with
    | some v => .ok (some v, s)
    | none =>
        match ConfigArray.computeConfig glob relative mergeFn emptyCfg s filePath with
        | .error e => .error e
        | .ok finalConfig =>
            .ok (some finalConfig, { s with cache := s.cache ++ [(filePath, finalConfig)] })

/-- Modelled from the spec (section 4.4.2, cited by the claim about
per-entry `ignores`): the gitignore-style ordered-negation evaluation of an
ignore list.  State starts included (`false`); a non-negated pattern that
matches sets the state to ignored; a negated pattern whose remainder matches
sets it back to included; the final state decides. -/
def specOrderedIgnore (glob : String → String → Bool) (rel : String)
    (igs : List String) : Bool :=
  igs.foldl
    (fun state pat =>
      match pat.toList with
      | '!' :: rest => if glob rel (String.mk rest) then false else state
      | _ => if glob rel pat then true else state)
    false

/-- JS object spread `{ ...a, ...b }` over schema definition objects,
modelled on key-lookup functions: keys of `b` override keys of `a`. -/
def objectSpread {σ : Type} (a b : String → Option σ) : String → Option σ :=
  fun key =>
    match b key with
    | some v => some v
    | none => a key

/-- The three strategies of `baseSchema` (`src/src/base-schema.js`), kept
abstract: the claims are about which strategy object ends up in the
combined schema, not about the strategies themselves. -/
structure BaseSchemaStrategies (σ : Type) where
  nameStrategy : σ
  filesStrategy : σ
  ignoresStrategy : σ

/-- The `baseSchema` object as a key-lookup function: it defines exactly the
keys `name`, `files` and `ignores`. -/
def baseSchemaLookup {σ : Type} (bs : BaseSchemaStrategies σ) : String → Option σ :=
  fun key =>
    if key = "name" then some bs.nameStrategy
    else if key = "files" then some bs.filesStrategy
    else if key = "ignores" then some bs.ignoresStrategy
    else none

/-- Translation of the schema set up by the constructor (part_002 lines
164-167): `new ObjectSchema({ ...customSchema, ...baseSchema })` — the
user-supplied definitions are spread first and `baseSchema` last. -/
def constructorSchema {σ : Type} (customSchema : String → Option σ)
    (bs : BaseSchemaStrategies σ) : String → Option σ :=
  objectSpread customSchema (baseSchemaLookup bs)

/-- True when the item is a config function that, invoked with the context,
returns another function. -/
def returnsCallable {Ctx : Type} (context : Ctx) : Item Ctx → Bool
  | .fn f =>
      match f context with
      | .fn _ => true
      | _ => false
  | _ => false

/-
Concrete fixtures used by the counterexample and witness theorems.  The glob
oracle fixtures record the values real minimatch (`matchBase: true`) returns
on exactly the path/pattern pairs the fixtures exercise.
-/

/-- A normalized array holding a single files-less entry carrying the user
key `defs`, the shape of the failing input for the `getConfig` claim. -/
def filesLessState : CAState Unit (List (String × Nat)) :=
  { entries := [Item.obj { extra := [("defs", 1)] }], basePath := "",
    isNorm := true, frozen := true, cache := [] }

/-- Glob oracle agreeing with minimatch (`matchBase: true`) on the pairs
used by the per-entry ignores counterexample: `foo.test.js` matches
`**/*.js`, `**/*.test.js` and `foo.test.js`, and nothing else does. -/
def globFixture : String → String → Bool := fun pathStr pat =>
  pathStr = "foo.test.js" &&
    (pat = "**/*.js" || pat = "**/*.test.js" || pat = "foo.test.js")

/-- A normalized array holding one entry that has `ignores` together with a
user key (and no `files`), the failing input for the `ignores` getter
claim. -/
def mixedIgnoresState : CAState Unit Unit :=
  { entries := [Item.obj { ignores := some ["tests/fixtures/**"], extra := [("defs", 1)] }],
    basePath := "", isNorm := true, frozen := true, cache := [] }

/-- A config function that returns another function, the invalid factory of
the `normalize` failure claim. -/
def badFnItem : Item Unit := .fn (fun _ => .fn (fun _ => .obj {}))

/-
Helper lemmas.
-/

/-- A fresh cache entry appended at the end is found when the key was not
cached before. -/
theorem cacheGet_append_self {μ : Type} (a : List (String × μ)) (k : String) (v : μ)
    (h : cacheGet a k = none) : cacheGet (a ++ [(k, v)]) k = some v := by
  induction a with
  | nil => simp [cacheGet]
  | cons hd tl ih =>
      obtain ⟨hk, hv⟩ := hd
      by_cases hkk : hk = k
      · simp [cacheGet, hkk] at h
      · simp [cacheGet, hkk] at h ⊢
        exact ih h

/-- Binding a returned value in the exception monad applies the
continuation. -/
@[simp] theorem exceptPure_bind {ε α β : Type} (a : α) (f : α → Except ε β) :
    (Except.ok a >>= f) = f a := rfl

/-- Binding a thrown error in the exception monad propagates the error. -/
@[simp] theorem exceptThrow_bind {ε α β : Type} (e : ε) (f : α → Except ε β) :
    ((Except.error e : Except ε α) >>= f) = Except.error e := rfl

/-- `pathMatches` throws only the `invalidFiles` TypeError, and only on
configs whose `files` value is truthy but not a non-empty array. -/
theorem pathMatches_error_cases (glob : String → String → Bool) (rel : String)
    (c : Config) (e : CAErr) (h : pathMatches glob rel c = .error e) :
    e = .invalidFiles ∧ hasInvalidFiles c = true := by
  unfold pathMatches at h
  cases hf : c.files with
  | absent => rw [hf] at h; simp [jsTruthyFiles] at h
  | notArray t =>
      rw [hf] at h
      cases t with
      | false => simp [jsTruthyFiles] at h
      | true =>
          simp [jsTruthyFiles] at h
          exact ⟨h.symm, by simp [hasInvalidFiles, hf]⟩
  | array elems =>
      rw [hf] at h
      cases elems with
      | nil =>
          simp [jsTruthyFiles] at h
          exact ⟨h.symm, by simp [hasInvalidFiles, hf]⟩
      | cons p ps =>
          simp [jsTruthyFiles] at h
          cases hi : c.ignores <;> rw [hi] at h <;> simp at h

/-- A config with an invalid `files` value makes `pathMatches` throw, for
every path. -/
theorem pathMatches_invalid (glob : String → String → Bool) (rel : String)
    (c : Config) (h : hasInvalidFiles c = true) :
    pathMatches glob rel c = .error .invalidFiles := by
  unfold hasInvalidFiles at h
  unfold pathMatches
  cases hf : c.files with
  | absent => rw [hf] at h; simp at h
  | notArray t =>
      rw [hf] at h
      simp at h
      simp [hf, jsTruthyFiles, h]
  | array elems =>
      rw [hf] at h
      cases elems with
      | nil => simp [hf, jsTruthyFiles]
      | cons p ps => simp at h

/-- A config with a valid `files` value never makes `pathMatches` throw. -/
theorem pathMatches_valid (glob : String → String → Bool) (rel : String)
    (c : Config) (h : hasInvalidFiles c = false) :
    ∃ b, pathMatches glob rel c = .ok b := by
  cases hpm : pathMatches glob rel c with
  | ok b => exact ⟨b, rfl⟩
  | error e =>
      obtain ⟨-, hinv⟩ := pathMatches_error_cases glob rel c e hpm
      rw [h] at hinv
      cases hinv

/-- The matching loop throws as soon as some entry's `pathMatches` throws. -/
theorem collectMatching_error_of_mem {Ctx : Type} (glob : String → String → Bool)
    (rel : String) (items : List (Item Ctx)) (item : Item Ctx)
    (hmem : item ∈ items)
    (herr : pathMatches glob rel (itemConfig item) = .error .invalidFiles) :
    collectMatching glob rel items = .error .invalidFiles := by
  induction items with
  | nil => cases hmem
  | cons a rest ih =>
      rcases List.mem_cons.mp hmem with hai | htl
      · subst hai
        simp [collectMatching, herr]
      · cases hpa : pathMatches glob rel (itemConfig a) with
        | error e =>
            obtain ⟨he, -⟩ := pathMatches_error_cases glob rel (itemConfig a) e hpa
            subst he
            simp [collectMatching, hpa]
        | ok b =>
            simp [collectMatching, hpa, ih htl]

/-- The matching loop never throws when every entry's `files` value is
valid. -/
theorem collectMatching_ok_of_valid {Ctx : Type} (glob : String → String → Bool)
    (rel : String) (items : List (Item Ctx))
    (h : ∀ i ∈ items, hasInvalidFiles (itemConfig i) = false) :
    ∃ l, collectMatching glob rel items = .ok l := by
  induction items with
  | nil => exact ⟨[], rfl⟩
  | cons a rest ih =>
      obtain ⟨b, hb⟩ := pathMatches_valid glob rel (itemConfig a)
        (h a (List.mem_cons_self a rest))
      obtain ⟨l, hl⟩ := ih (fun i hi => h i (List.mem_cons_of_mem a hi))
      refine ⟨if b then itemConfig a :: l else l, ?_⟩
      simp [collectMatching, hb, hl]

/-- Flattening a list of plain config objects succeeds and returns exactly
those configs, in order, whenever at least one unit of fuel is available. -/
theorem flatTraverse_objs {Ctx : Type} (context : Ctx) (fuel : Nat)
    (cfgs : List Config) :
    flatTraverse context (fuel + 1) (cfgs.map Item.obj) = .ok cfgs := by
  induction cfgs with
  | nil => rfl
  | cons c rest ih =>
      show traverseLevel _ (Item.obj c :: rest.map Item.obj) = .ok (c :: rest)
      have hrest : traverseLevel _ (rest.map Item.obj) = .ok rest := ih
      simp [traverseLevel, hrest]

/-- One level of traversal throws whenever some element's step throws. -/
theorem traverseLevel_error_of_mem {Ctx : Type}
    (step : Item Ctx → Except NormErr (List Config))
    (l : List (Item Ctx)) (item : Item Ctx) (hmem : item ∈ l)
    (herr : ∃ e, step item = .error e) :
    ∃ e, traverseLevel step l = .error e := by
  induction l with
  | nil => cases hmem
  | cons a rest ih =>
      rcases List.mem_cons.mp hmem with hai | htl
      · subst hai
        obtain ⟨e, he⟩ := herr
        exact ⟨e, by simp [traverseLevel, he]⟩
      · cases hsa : step a with
        | error e => exact ⟨e, by simp [traverseLevel, hsa]⟩
        | ok v =>
            obtain ⟨e, he⟩ := ih htl
            exact ⟨e, by simp [traverseLevel, hsa, he]⟩

/-- Flattening throws whenever the list contains a config function that
returns another function: the `InvalidReturn` TypeError when that element is
reached first, or an earlier error otherwise. -/
theorem flatTraverse_error_of_badfn {Ctx : Type} (context : Ctx) (fuel : Nat)
    (items : List (Item Ctx)) (item : Item Ctx) (hmem : item ∈ items)
    (hbad : returnsCallable context item = true) :
    ∃ e, flatTraverse context fuel items = .error e := by
  cases fuel with
  | zero =>
      cases items with
      | nil => cases hmem
      | cons a rest => exact ⟨.depthExceeded, rfl⟩
  | succ fuel =>
      apply traverseLevel_error_of_mem _ items item hmem
      unfold returnsCallable at hbad
      cases item with
      | obj c => simp at hbad
      | arr inner => simp at hbad
      | fn f =>
          simp only [] at hbad
          cases hf : f context with
          | obj c => rw [hf] at hbad; simp at hbad
          | arr inner => rw [hf] at hbad; simp at hbad
          | fn g => exact ⟨.fnReturnedFn, by simp [hf]⟩

/-
Claim theorems.
-/

/-- C1.  The claim states that when no entry with a `files` key matches the
path, `getConfig` returns `undefined` even if files-less entries are
present.  Evaluating the embedded `getConfig` on a normalized array that
holds a single files-less entry carrying the user key `defs` (no entry has
`files`, and the glob oracle matches nothing, so no entry with `files`
matches `foo.js`) shows that the code instead returns the schema merge of
the files-less entry — an object, not `undefined`: the files-less entry
passes `pathMatches` unconditionally and is folded into the result. -/
theorem getConfig_filesless_entry_yields_object :
    (ConfigArray.getConfig (fun _ _ => false) (fun _ p => p)
        (fun acc c => acc ++ c.extra) [] filesLessState "foo.js").map (fun r => r.1)
      = .ok (some [("defs", 1)]) ∧
    (Except.ok (some [("defs", 1)]) : Except CAErr (Option (List (String × Nat))))
      ≠ .ok none :=
  ⟨by decide, by decide⟩

/-- C2.  The claim states that a file matching an entry's `files` is
excluded by the entry's `ignores` following gitignore-style ordered
negation: excluded iff some non-negated pattern matches and no later
negated pattern re-includes it.  For the entry
`files: ["**/*.js"], ignores: ["**/*.test.js", "!foo.test.js"]` and the
relative path `foo.test.js` (the repository's own test suite exercises this
very shape), the ordered-negation rule re-includes the file — the later
`!foo.test.js` matches — so the entry should apply; but the code evaluates
`ignores.some(pattern => minimatch(path, pattern))`, where the earlier
`**/*.test.js` already matches, so the entry is excluded
(`pathMatches` is false).  The second conjunct evaluates the spec-side
ordered-negation rule at the same input, showing it yields `not excluded`. -/
theorem pathMatches_ignores_unordered :
    pathMatches globFixture "foo.test.js"
      { files := .array [.str "**/*.js"],
        ignores := some ["**/*.test.js", "!foo.test.js"] } = .ok false ∧
    specOrderedIgnore globFixture "foo.test.js" ["**/*.test.js", "!foo.test.js"]
      = false :=
  ⟨by decide, by decide⟩

/-- C5.  The claim states that the `ignores` getter concatenates the
`ignores` of global-ignore entries only — entries whose sole key is
`ignores` — and that entries carrying `ignores` together with other user
keys contribute nothing.  Evaluating the embedded getter on a normalized
array holding one entry with `ignores: ["tests/fixtures/**"]` and the user
key `defs` shows the code includes that entry's patterns anyway: its test
is `config.ignores && !config.files`, which ignores the other keys. -/
theorem ignoresGet_includes_mixed_entry :
    ConfigArray.ignoresGet mixedIgnoresState = .ok ["tests/fixtures/**"] ∧
    (Except.ok ["tests/fixtures/**"] : Except CAErr (List String)) ≠ .ok [] :=
  ⟨by decide, by decide⟩

/-- C6 counterexample.  The claim states that for a key defined both in the
user-supplied schema extension and in the base schema, the user-supplied
strategy is the one in effect.  With the base strategy for `name` modelled
as `0` and a user strategy `1` for the same key, the constructor's spread
`{ ...customSchema, ...baseSchema }` puts the base strategy in effect. -/
theorem constructorSchema_base_wins_cex :
    constructorSchema (fun key => if key = "name" then some 1 else none)
      (⟨0, 0, 0⟩ : BaseSchemaStrategies Nat) "name" = some 0 ∧ (0 : Nat) ≠ 1 :=
  ⟨by decide, by decide⟩

/-- C6 amended.  The schema used by a `ConfigArray` combines the
user-supplied extension with the base schema by spreading the user schema
first and the base schema last: for the keys `name`, `files` and `ignores`
the base strategy is the one in effect even when the user extension defines
them, and for every other key the user-supplied strategy applies. -/
theorem constructorSchema_spread (σ : Type) (customSchema : String → Option σ)
    (bs : BaseSchemaStrategies σ) :
    constructorSchema customSchema bs "name" = some bs.nameStrategy ∧
    constructorSchema customSchema bs "files" = some bs.filesStrategy ∧
    constructorSchema customSchema bs "ignores" = some bs.ignoresStrategy ∧
    ∀ key, key ≠ "name" → key ≠ "files" → key ≠ "ignores" →
      constructorSchema customSchema bs key = customSchema key := by
  refine ⟨rfl, rfl, rfl, ?_⟩
  intro key h1 h2 h3
  unfold constructorSchema objectSpread baseSchemaLookup
  simp [h1, h2, h3]

/-- C6 witness: the amended schema-combination theorem at a concrete
instance, with the hypotheses of its last conjunct discharged at the user
key `defs`. -/
theorem constructorSchema_spread_witness :
    constructorSchema (fun key => if key = "defs" then some 7 else none)
        (⟨0, 1, 2⟩ : BaseSchemaStrategies Nat) "name" = some 0 ∧
    constructorSchema (fun key => if key = "defs" then some 7 else none)
        (⟨0, 1, 2⟩ : BaseSchemaStrategies Nat) "defs" = some 7 := by
  have h := constructorSchema_spread Nat
    (fun key => if key = "defs" then some 7 else none) ⟨0, 1, 2⟩
  exact ⟨h.1, by
    have := h.2.2.2 "defs" (by decide) (by decide) (by decide)
    simpa using this⟩

/-- C10.  Constructing a `ConfigArray` from a single non-array config value
behaves exactly like constructing it from the one-element array holding that
value: the resulting instance has that value as its sole element, for both
non-array shapes (a plain object and a config function). -/
theorem construct_single_wraps {Ctx μ : Type} (c : Config) (f : Ctx → Item Ctx)
    (basePath : String) (normalized : Bool) :
    (@ConfigArray.construct Ctx μ (.obj c) basePath normalized).entries = [.obj c] ∧
    @ConfigArray.construct Ctx μ (.obj c) basePath normalized
      = @ConfigArray.construct Ctx μ (.arr [.obj c]) basePath normalized ∧
    (@ConfigArray.construct Ctx μ (.fn f) basePath normalized).entries = [.fn f] ∧
    @ConfigArray.construct Ctx μ (.fn f) basePath normalized
      = @ConfigArray.construct Ctx μ (.arr [.fn f]) basePath normalized :=
  ⟨rfl, rfl, rfl, rfl⟩

/-- The computed config of a file depends only on the entries and the base
path, not on the cache. -/
theorem computeConfig_cache_invariant {Ctx μ : Type} (glob : String → String → Bool)
    (relative : String → String → String) (mergeFn : μ → Config → μ) (emptyCfg : μ)
    (s : CAState Ctx μ) (c2 : List (String × μ)) (p : String) :
    ConfigArray.computeConfig glob relative mergeFn emptyCfg { s with cache := c2 } p
      = ConfigArray.computeConfig glob relative mergeFn emptyCfg s p := rfl

/-- C3.  Starting from an un-normalized array, a successful `normalize` call
marks the array normalized and freezes it, and a second `normalize` call —
with any fuel and any context — is a no-op that returns the very same
state: the transition is one-way and idempotent. -/
theorem normalize_one_way_idempotent {Ctx μ : Type} (fuel fuel2 : Nat)
    (context context2 : Ctx) (s s1 : CAState Ctx μ)
    (h0 : s.isNorm = false)
    (h : ConfigArray.normalizeM fuel s context = (.ok (), s1)) :
    s1.isNorm = true ∧ s1.frozen = true ∧
    ConfigArray.normalizeM fuel2 s1 context2 = (.ok (), s1) := by
  unfold ConfigArray.normalizeM at h
  rw [h0] at h
  simp only [Bool.false_eq_true, if_false] at h
  cases hft : flatTraverse context fuel s.entries with
  | error e =>
      rw [hft] at h
      rw [Prod.mk.injEq] at h
      obtain ⟨habs, -⟩ := h
      cases habs
  | ok cfgs =>
      rw [hft] at h
      rw [Prod.mk.injEq] at h
      obtain ⟨-, hs1⟩ := h
      subst hs1
      refine ⟨rfl, rfl, ?_⟩
      unfold ConfigArray.normalizeM
      simp

/-- An un-normalized one-object array and the frozen state a successful
`normalize` call turns it into, used to witness the idempotence theorem. -/
def freshObjState : CAState Unit Unit := ConfigArray.construct (.arr [.obj {}]) "" false

/-- The state `freshObjState` reaches after one `normalize` call. -/
def settledObjState : CAState Unit Unit :=
  { entries := [.obj {}], basePath := "", isNorm := true, frozen := true, cache := [] }

/-- C3 witness: the idempotence theorem applied to a concrete un-normalized
one-object array. -/
theorem normalize_one_way_idempotent_witness :
    settledObjState.isNorm = true ∧ settledObjState.frozen = true ∧
    ConfigArray.normalizeM 1 settledObjState () = (.ok (), settledObjState) :=
  normalize_one_way_idempotent 1 1 () () freshObjState settledObjState rfl rfl

/-- C4.  On a normalized array whose cache is coherent (every cached value
is what recomputing the resolution for its key yields), a `getConfig` call
for a resolvable path returns the recomputed value, and a second call
returns the very same value from the cache, leaving the state unchanged:
repeated calls agree with each other and with recomputation. -/
theorem getConfig_cached_and_stable {Ctx μ : Type} (glob : String → String → Bool)
    (relative : String → String → String) (mergeFn : μ → Config → μ) (emptyCfg : μ)
    (s : CAState Ctx μ) (filePath : String) (v : μ)
    (hnorm : s.isNorm = true)
    (hcoh : ∀ k w, cacheGet s.cache k = some w →
      ConfigArray.computeConfig glob relative mergeFn emptyCfg s k = .ok w)
    (hcompute : ConfigArray.computeConfig glob relative mergeFn emptyCfg s filePath = .ok v) :
    ∃ s1, ConfigArray.getConfig glob relative mergeFn emptyCfg s filePath
        = .ok (some v, s1) ∧
      ConfigArray.getConfig glob relative mergeFn emptyCfg s1 filePath
        = .ok (some v, s1) ∧
      ConfigArray.computeConfig glob relative mergeFn emptyCfg s1 filePath = .ok v := by
  cases hc : cacheGet s.cache filePath with
  | some w =>
      have hw := hcoh filePath w hc
      rw [hcompute] at hw
      injection hw with hvw
      subst hvw
      exact ⟨s, by simp [ConfigArray.getConfig, hnorm, hc],
        by simp [ConfigArray.getConfig, hnorm, hc], hcompute⟩
  | none =>
      refine ⟨{ s with cache := s.cache ++ [(filePath, v)] }, ?_, ?_, ?_⟩
      · simp [ConfigArray.getConfig, hnorm, hc, hcompute]
      · have hget := cacheGet_append_self s.cache filePath v hc
        simp [ConfigArray.getConfig, hnorm, hget]
      · exact (computeConfig_cache_invariant glob relative mergeFn emptyCfg s
          (s.cache ++ [(filePath, v)]) filePath).trans hcompute

/-- C4 witness: the caching theorem applied to a concrete normalized array
with an empty (hence trivially coherent) cache. -/
theorem getConfig_cached_and_stable_witness :
    filesLessState.isNorm = true ∧
    ∃ s1, ConfigArray.getConfig (fun _ _ => false) (fun _ p => p)
        (fun acc c => acc ++ c.extra) [] filesLessState "foo.js"
        = .ok (some [("defs", 1)], s1) ∧
      ConfigArray.getConfig (fun _ _ => false) (fun _ p => p)
        (fun acc c => acc ++ c.extra) [] s1 "foo.js" = .ok (some [("defs", 1)], s1) ∧
      ConfigArray.computeConfig (fun _ _ => false) (fun _ p => p)
        (fun acc c => acc ++ c.extra) [] s1 "foo.js" = .ok [("defs", 1)] :=
  ⟨rfl, getConfig_cached_and_stable (fun _ _ => false) (fun _ p => p)
    (fun acc c => acc ++ c.extra) [] filesLessState "foo.js" [("defs", 1)] rfl
    (fun k w hw => by simp [filesLessState, cacheGet] at hw) (by decide)⟩

/-- C7.  An array containing a config whose `files` value is not a
non-empty array normalizes successfully — `normalize` performs no `files`
validation — and the resulting frozen array throws the `invalidFiles`
TypeError on every `getConfig` call: the failure is raised lazily at query
time, not at normalization time. -/
theorem invalidFiles_error_is_lazy {Ctx μ : Type} (fuel : Nat) (context : Ctx)
    (cfgs : List Config) (basePath : String) (c0 : Config)
    (hmem : c0 ∈ cfgs) (hbad : hasInvalidFiles c0 = true) :
    ∃ s1 : CAState Ctx μ,
      ConfigArray.normalizeM (fuel + 1)
          (ConfigArray.construct (.arr (cfgs.map Item.obj)) basePath false) context
        = (.ok (), s1) ∧
      s1.isNorm = true ∧ s1.frozen = true ∧
      ∀ (glob : String → String → Bool) (relative : String → String → String)
        (mergeFn : μ → Config → μ) (emptyCfg : μ) (filePath : String),
        ConfigArray.getConfig glob relative mergeFn emptyCfg s1 filePath
          = .error .invalidFiles := by
  refine ⟨{ entries := cfgs.map Item.obj, basePath := basePath, isNorm := true,
            frozen := true, cache := [] }, ?_, rfl, rfl, ?_⟩
  · simp [ConfigArray.normalizeM, ConfigArray.construct, flatTraverse_objs]
  · intro glob relative mergeFn emptyCfg filePath
    have hmem2 : (Item.obj c0 : Item Ctx) ∈ cfgs.map Item.obj :=
      List.mem_map_of_mem Item.obj hmem
    have hcol := collectMatching_error_of_mem glob (relative basePath filePath)
      (cfgs.map Item.obj) (Item.obj c0) hmem2
      (pathMatches_invalid glob (relative basePath filePath) c0 hbad)
    simp [ConfigArray.getConfig, ConfigArray.computeConfig, cacheGet, hcol, Except.map]

/-- A config whose `files` key holds an empty array, the failing shape of
the lazy-validation claim. -/
def emptyFilesConfig : Config := { files := .array [] }

/-- C7 witness: the lazy-error theorem applied to a concrete one-entry
array whose config has `files: []`. -/
theorem invalidFiles_error_is_lazy_witness :
    emptyFilesConfig ∈ [emptyFilesConfig] ∧
    hasInvalidFiles emptyFilesConfig = true ∧
    ∃ s1 : CAState Unit Unit,
      ConfigArray.normalizeM 1
          (ConfigArray.construct (.arr ([emptyFilesConfig].map Item.obj)) "" false) ()
        = (.ok (), s1) ∧
      s1.isNorm = true ∧ s1.frozen = true ∧
      ∀ (glob : String → String → Bool) (relative : String → String → String)
        (mergeFn : Unit → Config → Unit) (emptyCfg : Unit) (filePath : String),
        ConfigArray.getConfig glob relative mergeFn emptyCfg s1 filePath
          = .error .invalidFiles :=
  ⟨List.mem_singleton_self emptyFilesConfig, rfl,
    invalidFiles_error_is_lazy 0 () [emptyFilesConfig] "" emptyFilesConfig
      (List.mem_singleton_self emptyFilesConfig) rfl⟩

/-- C8.  When an un-normalized array contains a config function that, once
invoked with the context, returns another function, `normalize` throws and
returns the array unchanged: the normalization flag stays false and the
array is not frozen, so it remains mutable. -/
theorem normalize_fn_returning_fn_fails {Ctx μ : Type} (fuel : Nat) (context : Ctx)
    (s : CAState Ctx μ) (item : Item Ctx)
    (h0 : s.isNorm = false) (hmem : item ∈ s.entries)
    (hbad : returnsCallable context item = true) :
    ∃ e, ConfigArray.normalizeM fuel s context = (.error e, s) := by
  obtain ⟨e, he⟩ := flatTraverse_error_of_badfn context fuel s.entries item hmem hbad
  exact ⟨e, by simp [ConfigArray.normalizeM, h0, he]⟩

/-- The un-normalized array holding the function-returning function. -/
def badFnState : CAState Unit Unit := ConfigArray.construct (.arr [badFnItem]) "" false

/-- C8 witness: the failure theorem applied to a concrete array holding one
config function that returns another function. -/
theorem normalize_fn_returning_fn_fails_witness :
    badFnState.isNorm = false ∧ badFnState.frozen = false ∧
    returnsCallable () badFnItem = true ∧
    ∃ e, ConfigArray.normalizeM 5 badFnState () = (.error e, badFnState) :=
  ⟨rfl, rfl, rfl,
    normalize_fn_returning_fn_fails 5 () badFnState badFnItem rfl
      (List.mem_singleton_self badFnItem) rfl⟩

/-- The loop body of the `files` getter never throws on a config whose
`files` value is valid. -/
theorem filesGetStep_ok (acc : List FilePattern) (c : Config)
    (h : hasInvalidFiles c = false) : ∃ r, filesGetStep acc c = .ok r := by
  unfold hasInvalidFiles at h
  unfold filesGetStep
  cases hf : c.files with
  | absent => exact ⟨acc, by simp [jsTruthyFiles]⟩
  | notArray t =>
      rw [hf] at h
      simp at h
      exact ⟨acc, by simp [jsTruthyFiles, h]⟩
  | array elems => exact ⟨acc ++ elems, by simp [jsTruthyFiles]⟩

/-- The `files` getter's fold never throws when every entry's `files` value
is valid. -/
theorem filesFold_ok {Ctx : Type} (items : List (Item Ctx))
    (h : ∀ i ∈ items, hasInvalidFiles (itemConfig i) = false) :
    ∀ acc, ∃ r, List.foldlM (fun acc2 item => filesGetStep acc2 (itemConfig item))
      acc items = .ok r := by
  induction items with
  | nil => exact fun acc => ⟨acc, rfl⟩
  | cons a rest ih =>
      intro acc
      obtain ⟨r1, hr1⟩ := filesGetStep_ok acc (itemConfig a)
        (h a (List.mem_cons_self a rest))
      obtain ⟨r2, hr2⟩ := ih (fun i hi => h i (List.mem_cons_of_mem a hi)) r1
      exact ⟨r2, by simp [List.foldlM, hr1, hr2]⟩

/-- C9.  A `ConfigArray` constructed with `normalized: true` from plain
configs with valid `files` values answers every query without a `normalize`
call — `getConfig`, the `files` getter and the `ignores` getter all succeed,
since `assertNormalized` only consults the flag — and `push` also still
succeeds, because `Object.freeze` happens only inside `normalize`. -/
theorem normalized_option_allows_queries {Ctx μ : Type} (cfgs : List Config)
    (basePath : String) (item2 : Item Ctx) (glob : String → String → Bool)
    (relative : String → String → String) (mergeFn : μ → Config → μ) (emptyCfg : μ)
    (s : CAState Ctx μ)
    (hs : s = ConfigArray.construct (.arr (cfgs.map Item.obj)) basePath true)
    (hvalid : ∀ c ∈ cfgs, hasInvalidFiles c = false) :
    s.isNorm = true ∧ s.frozen = false ∧
    (∃ r, ConfigArray.filesGet s = .ok r) ∧
    (∃ r, ConfigArray.ignoresGet s = .ok r) ∧
    (∀ filePath, ∃ v s2,
      ConfigArray.getConfig glob relative mergeFn emptyCfg s filePath
        = .ok (some v, s2)) ∧
    ConfigArray.pushEntry s item2 = .ok { s with entries := s.entries ++ [item2] } := by
  subst hs
  have hvalid2 : ∀ i ∈ cfgs.map (Item.obj : Config → Item Ctx),
      hasInvalidFiles (itemConfig i) = false := by
    intro i hi
    obtain ⟨c, hc, rfl⟩ := List.mem_map.mp hi
    exact hvalid c hc
  refine ⟨rfl, rfl, ?_, ⟨_, rfl⟩, ?_, rfl⟩
  · obtain ⟨r, hr⟩ := filesFold_ok (cfgs.map Item.obj) hvalid2 []
    exact ⟨r, by simp [ConfigArray.filesGet, ConfigArray.construct, hr]⟩
  · intro filePath
    obtain ⟨l, hl⟩ := collectMatching_ok_of_valid glob (relative basePath filePath)
      (cfgs.map Item.obj) hvalid2
    refine ⟨l.foldl mergeFn emptyCfg,
      { entries := cfgs.map Item.obj, basePath := basePath, isNorm := true,
        frozen := false, cache := [(filePath, l.foldl mergeFn emptyCfg)] }, ?_⟩
    simp [ConfigArray.getConfig, ConfigArray.computeConfig, ConfigArray.construct,
      cacheGet, hl, Except.map]

/-- A one-entry array of a plain config constructed with `normalized: true`
and never passed through `normalize`. -/
def plainState : CAState Unit Unit :=
  ConfigArray.construct (.arr ([({} : Config)].map Item.obj)) "" true

/-- C9 witness: the normalized-at-construction theorem applied to a
concrete array of one plain config, with concrete query parameters. -/
theorem normalized_option_allows_queries_witness :
    (∀ c ∈ [({} : Config)], hasInvalidFiles c = false) ∧
    (plainState.isNorm = true ∧ plainState.frozen = false ∧
      (∃ r, ConfigArray.filesGet plainState = .ok r) ∧
      (∃ r, ConfigArray.ignoresGet plainState = .ok r) ∧
      (∀ filePath, ∃ v s2,
        ConfigArray.getConfig (fun _ _ => false) (fun _ p => p) (fun acc _ => acc) ()
          plainState filePath = .ok (some v, s2)) ∧
      ConfigArray.pushEntry plainState (.obj {})
        = .ok { plainState with entries := plainState.entries ++ [.obj {}] }) :=
  ⟨by decide,
    normalized_option_allows_queries [({} : Config)] "" (.obj {})
      (fun _ _ => false) (fun _ p => p) (fun acc _ => acc) () plainState rfl
      (by decide)⟩
